import Mathlib

/-!
Verification development for the `nxt-car` robot-control program
(`src/nxt_car.py`): a per-actuator serializer thread, sensor-polling
threads, and a queue-based cooperative shutdown signal.  Python code is
shallowly embedded: queues become lists (front = next item to be
dequeued), the mutable `button_down` / `powerList[0]` cells become
explicit state parameters, and thread interleavings become explicit
schedules over a step function.
-/

namespace NxtCar

/-! ## Stop queue and `check_stop` (nxt_car.py lines 14, 19-26)

The stop queue may hold the sentinel `_stop_token` or arbitrary other
objects (the docstrings say the loops poll it "for _stop_token, ignoring
everything else").  We model an item as the token or some other object
identified by a natural number. -/

inductive StopItem where
  | token : StopItem
  | other : Nat → StopItem
deriving DecidableEq, Repr

/-- Embedding of `check_stop(stopQueue)`: `get_nowait` on an empty queue
raises `Queue.Empty`, caught, returning `False`; a dequeued token is put
back and `True` is returned; a dequeued non-token item is dropped and
`False` is returned.  Returns the result together with the queue after
the call. -/
def check_stop : List StopItem → Bool × List StopItem
  | [] => (false, [])
  | StopItem.token :: rest => (true, rest ++ [StopItem.token])
  | StopItem.other _ :: rest => (false, rest)

/-- The stop queue after `k` successive `check_stop` calls. -/
def checkStopIter : Nat → List StopItem → List StopItem
  | 0, q => q
  | k + 1, q => checkStopIter k (check_stop q).2

/-- The shutdown signal is "set" when the queue is nonempty and holds
nothing but stop tokens (the shutdown protocol only ever puts the token
on this queue). -/
def allTokens (q : List StopItem) : Prop :=
  q ≠ [] ∧ ∀ x ∈ q, x = StopItem.token

instance (q : List StopItem) : Decidable (allTokens q) := by
  unfold allTokens; infer_instance

lemma allTokens_check_stop {q : List StopItem} (h : allTokens q) :
    (check_stop q).1 = true ∧ allTokens (check_stop q).2 := by
  obtain ⟨hne, hall⟩ := h
  cases q with
  | nil => exact absurd rfl hne
  | cons x rest =>
    have hx : x = StopItem.token := hall x (List.mem_cons_self x rest)
    subst hx
    refine ⟨rfl, ?_, ?_⟩
    · simp [check_stop]
    · intro y hy
      simp only [check_stop, List.mem_append, List.mem_singleton] at hy
      rcases hy with hy | hy
      · exact hall y (List.mem_cons_of_mem _ hy)
      · exact hy

lemma allTokens_checkStopIter {q : List StopItem} (h : allTokens q) :
    ∀ k, allTokens (checkStopIter k q) := by
  intro k
  induction k generalizing q with
  | zero => exact h
  | succ k ih => exact ih (allTokens_check_stop h).2

/-- Putting the token (a `Queue.put`, which never fails on an unbounded
queue) enqueues it at the back. -/
lemma allTokens_put {q : List StopItem} (h : allTokens q) :
    allTokens (q ++ [StopItem.token]) := by
  obtain ⟨-, hall⟩ := h
  refine ⟨by simp, ?_⟩
  intro y hy
  rcases List.mem_append.mp hy with hy | hy
  · exact hall y hy
  · simpa using hy

/-! ## Touch-sensor poller (nxt_car.py `MotorTouchThread.run`, lines 111-129)

Each loop iteration reads `is_pressed()` exactly once (the two
conditions short-circuit on `button_down`), compares it with the tracked
`button_down` state, and on an edge issues `motor_start` (with the
current shared power value) or `motor_stop` through the motor
serializer. -/

inductive TCmd where
  | startCmd : Int → TCmd
  | stopCmd : TCmd
deriving DecidableEq, Repr

/-- One iteration of the touch loop body (after the jittered sleep and a
negative stop-queue check): given tracked state `button_down` and the
value `pressed` read from the sensor, returns the new tracked state and
the command issued, if any. -/
def touchStep (power : Int) (button_down pressed : Bool) :
    Bool × Option TCmd :=
  if !button_down && pressed then (true, some (TCmd.startCmd power))
  else if button_down && !pressed then (false, some TCmd.stopCmd)
  else (button_down, none)

/-- The sequence of commands issued by the touch loop over a script of
sensor readings, starting from tracked state `button_down`. -/
def touchLoop (power : Int) (button_down : Bool) : List Bool → List TCmd
  | [] => []
  | pressed :: rest =>
    match touchStep power button_down pressed with
    | (b, none) => touchLoop power b rest
    | (b, some c) => c :: touchLoop power b rest

/-- `MotorTouchThread.run`: `button_down` is initialized from an initial
`is_pressed()` read (the first element of the script), then the loop
consumes the remaining readings. -/
def touchPoll (power : Int) : List Bool → List TCmd
  | [] => []
  | first :: rest => touchLoop power first rest

/-! ## Device interface and motor callables (nxt_car.py lines 29-43)

The NXT motor is an external collaborator; we model it as a telemetry
value plus an event trace recording, in order, every operation issued to
the device and every telemetry sample taken.  `mech` abstracts the
mechanical effect of an actuator operation on the telemetry counters
(unknown hardware behaviour); `get_tacho` itself does not change the
counters. -/

structure Tacho where
  tacho_count : Int
  block_tacho_count : Int
  rotation_count : Int
deriving DecidableEq, Repr

inductive DevEv where
  | sample : Tacho → DevEv
  | runEv : Int → DevEv
  | brakeEv : DevEv
  | idleEv : DevEv
  | turnEv : Int → Int → DevEv
deriving DecidableEq, Repr

structure Dev where
  tacho : Tacho
  trace : List DevEv
deriving DecidableEq, Repr

/-- `motor.get_tacho()`: samples the current telemetry, recording the
sample in the trace. -/
def get_tacho (d : Dev) : Tacho × Dev :=
  (d.tacho, { d with trace := d.trace ++ [DevEv.sample d.tacho] })

/-- `nm.Motor.run(motor, power=p)`. -/
def runOp (mech : DevEv → Tacho → Tacho) (p : Int) (d : Dev) : Dev :=
  { tacho := mech (DevEv.runEv p) d.tacho,
    trace := d.trace ++ [DevEv.runEv p] }

/-- `motor.brake()`. -/
def brakeOp (mech : DevEv → Tacho → Tacho) (d : Dev) : Dev :=
  { tacho := mech DevEv.brakeEv d.tacho, trace := d.trace ++ [DevEv.brakeEv] }

/-- `motor.idle()`. -/
def idleOp (mech : DevEv → Tacho → Tacho) (d : Dev) : Dev :=
  { tacho := mech DevEv.idleEv d.tacho, trace := d.trace ++ [DevEv.idleEv] }

/-- `motor.turn(power, degrees)` (blocks until completion). -/
def turnOp (mech : DevEv → Tacho → Tacho) (p deg : Int) (d : Dev) : Dev :=
  { tacho := mech (DevEv.turnEv p deg) d.tacho,
    trace := d.trace ++ [DevEv.turnEv p deg] }

/-- `motor_start(motor, power)`: `t = motor.get_tacho()`, then
`nm.Motor.run(motor, power=MotorRunThread.power[0])` — note the source
issues the run at the shared class cell `MotorRunThread.power[0]`
(modelled by `powerCell`, its value at execution time), not at the
`power` argument — and returns `t`. -/
def motor_start (mech : DevEv → Tacho → Tacho) (powerCell : Int)
    (d : Dev) (power : Int) : Tacho × Dev :=
  let (t, d1) := get_tacho d
  let d2 := runOp mech powerCell d1
  (t, d2)

/-- `motor_stop(motor)`: brake if `motor.brake_flag` else idle, then
return `motor.get_tacho()`. -/
def motor_stop (mech : DevEv → Tacho → Tacho) (brake_flag : Bool)
    (d : Dev) : Tacho × Dev :=
  let d1 := if brake_flag then brakeOp mech d else idleOp mech d
  get_tacho d1

/-- `motor_turn(motor, power, degrees)`: `motor.turn(power, degrees)`,
then return `motor.get_tacho()`. -/
def motor_turn (mech : DevEv → Tacho → Tacho) (d : Dev)
    (power degrees : Int) : Tacho × Dev :=
  let d1 := turnOp mech power degrees d
  get_tacho d1

/-! ## Ultrasonic poller (nxt_car.py `UltrasonicThread.run`, lines 206-219)

Each iteration: jittered sleep, stop check, `get_distance()`; when the
distance is below `min_distance` the shared power cell's sign is flipped,
one `motor_turn` request with the flipped power and 180 degrees is
applied, and the loop sleeps `reverse_timout` before polling again.  We
model wall-clock time in abstract ticks: `dt` ticks pass per ordinary
iteration (the jittered sleep plus loop overhead) and `tout` further
ticks pass after a reversal (the cool-down `time.sleep(reverse_timout)`,
with `reverse_timout = 2` seconds, i.e. `tout` is about ten 0.2-second
jitter intervals); the scripted environment `dist` gives the measured
distance at each tick. -/

def min_distance : Int := 20

inductive UCmd where
  | turn : Int → Int → UCmd
deriving DecidableEq, Repr

/-- The commands issued by the ultrasonic loop over `fuel` iterations,
starting at tick `t` with shared power-cell value `power`. -/
def ultraRun (dist : Nat → Int) (dt tout : Nat) :
    Nat → Nat → Int → List UCmd
  | 0, _, _ => []
  | fuel + 1, t, power =>
    if dist (t + dt) < min_distance then
      UCmd.turn (-power) 180 ::
        ultraRun dist dt tout fuel (t + dt + tout) (-power)
    else
      ultraRun dist dt tout fuel (t + dt) power

/-- The power-cell value after the same `fuel` iterations (the sign is
flipped once per reversal). -/
def ultraPower (dist : Nat → Int) (dt tout : Nat) :
    Nat → Nat → Int → Int
  | 0, _, power => power
  | fuel + 1, t, power =>
    if dist (t + dt) < min_distance then
      ultraPower dist dt tout fuel (t + dt + tout) (-power)
    else
      ultraPower dist dt tout fuel (t + dt) power

/-! ## Serializer work requests (nxt_car.py `Serializer`, lines 46-65)

A work request is one of the motor callables with its arguments.  The
telemetry result a request produces reflects the motion that request
caused, so results of distinct requests are distinguishable; we model a
result as tagged by the request that produced it. -/

inductive Job where
  | start : Int → Job
  | stop : Job
  | turn : Int → Int → Job
deriving DecidableEq, Repr

structure Res where
  producedBy : Job
deriving DecidableEq, Repr

/-- Executing a request (`callable(*args, **kwds)`) yields its result. -/
def execRes (j : Job) : Res := ⟨j⟩

/-! ### Interleaved apply/consume semantics (Serializer.apply lines
57-60, consumer loop lines 62-65 and 153-166)

`apply` from a caller thread puts `(callable, args, kwds)` on the shared
`workRequestQueue`, then blocks on `resultQueue.get()`.  The single
consumer loop takes the front request, executes it, and puts the result
on the SAME shared `resultQueue` (there is one `resultQueue` per
serializer, not one per request).  Which blocked caller a
`resultQueue.get()` item goes to is scheduler-dependent, so the schedule
chooses which pending caller performs the get.  `submitted` and
`delivered` log the apply calls and the results returned from them. -/

structure SerState where
  workRequestQueue : List (Nat × Job)
  resultQueue : List Res
  pending : List Nat
  submitted : List (Nat × Job)
  delivered : List (Nat × Res)
deriving DecidableEq, Repr

inductive Act where
  | applyPut : Nat → Job → Act
  | consume : Act
  | applyGet : Nat → Act
deriving DecidableEq, Repr

/-- One atomic step of the system.  `applyPut i j` is the first half of
`apply` by caller `i` (a caller blocked inside `apply` cannot call it
again, hence the `pending` guard); `consume` is one pass of the consumer
loop (dequeue front request, execute, put result); `applyGet i` is a
pending caller's `resultQueue.get()` returning the front result.  `none`
means the step is blocked (Python: the thread stays blocked in
`Queue.get`). -/
def step (s : SerState) : Act → Option SerState
  | Act.applyPut i j =>
    if i ∈ s.pending then none
    else some { s with
      workRequestQueue := s.workRequestQueue ++ [(i, j)],
      pending := s.pending ++ [i],
      submitted := s.submitted ++ [(i, j)] }
  | Act.consume =>
    match s.workRequestQueue with
    | [] => none
    | (_, j) :: rest => some { s with
        workRequestQueue := rest,
        resultQueue := s.resultQueue ++ [execRes j] }
  | Act.applyGet i =>
    if i ∈ s.pending then
      match s.resultQueue with
      | [] => none
      | r :: rest => some { s with
          resultQueue := rest,
          pending := s.pending.erase i,
          delivered := s.delivered ++ [(i, r)] }
    else none

def runSched (s : SerState) : List Act → Option SerState
  | [] => some s
  | a :: rest => (step s a).bind fun s2 => runSched s2 rest

def initSer : SerState := ⟨[], [], [], [], []⟩

/-- Every result returned from an `apply` call went to the caller whose
own submitted request produced it. -/
def deliveredOwn (s : SerState) : Prop :=
  ∀ p ∈ s.delivered, ∃ q ∈ s.submitted, q.1 = p.1 ∧ p.2 = execRes q.2

instance (s : SerState) : Decidable (deliveredOwn s) := by
  unfold deliveredOwn; infer_instance

/-- A schedule in which the `apply` calls do not overlap: each caller
completes its `apply` (put, execution, get) before the next begins. -/
def serializedSched : List (Nat × Job) → List Act
  | [] => []
  | (i, j) :: rest =>
    Act.applyPut i j :: Act.consume :: Act.applyGet i :: serializedSched rest

/-! ### Execution-interval semantics of the consumer loop
(`MotorRunThread.run`, lines 153-166)

To talk about overlap of executions we split one consumer pass into the
dequeue/begin of `callable(*args, **kwds)` and its end.  The consumer is
a single sequential thread, so it cannot dequeue a new request while a
callable is running: `executing` is its program counter.  Caller threads
may enqueue at any time; `enqLog` records arrival order. -/

inductive ExEv where
  | beginEx : Job → ExEv
  | endEx : Job → ExEv
deriving DecidableEq, Repr

structure ExecState where
  workQueue : List Job
  executing : Option Job
  trace : List ExEv
  enqLog : List Job
deriving DecidableEq, Repr

inductive CAct where
  | enqueue : Job → CAct
  | beginStep : CAct
  | endStep : CAct
deriving DecidableEq, Repr

def cstep (s : ExecState) : CAct → Option ExecState
  | CAct.enqueue j => some { s with
      workQueue := s.workQueue ++ [j],
      enqLog := s.enqLog ++ [j] }
  | CAct.beginStep =>
    match s.executing, s.workQueue with
    | none, j :: rest => some { s with
        workQueue := rest,
        executing := some j,
        trace := s.trace ++ [ExEv.beginEx j] }
    | _, _ => none
  | CAct.endStep =>
    match s.executing with
    | some j => some { s with
        executing := none,
        trace := s.trace ++ [ExEv.endEx j] }
    | none => none

def runCSched (s : ExecState) : List CAct → Option ExecState
  | [] => some s
  | a :: rest => (cstep s a).bind fun s2 => runCSched s2 rest

def initExec : ExecState := ⟨[], none, [], []⟩

/-- `noOverlapAux cur t = true` when, threading the currently open
execution `cur` through the event list `t`, no execution begins while
another is open and every end matches the open begin. -/
def noOverlapAux : Option Job → List ExEv → Bool
  | _, [] => true
  | none, ExEv.beginEx j :: rest => noOverlapAux (some j) rest
  | none, ExEv.endEx _ :: _ => false
  | some _, ExEv.beginEx _ :: _ => false
  | some j, ExEv.endEx k :: rest => j = k && noOverlapAux none rest

def noOverlap (t : List ExEv) : Bool := noOverlapAux none t

/-- The requests whose execution began, in begin order. -/
def begins : List ExEv → List Job
  | [] => []
  | ExEv.beginEx j :: rest => j :: begins rest
  | ExEv.endEx _ :: rest => begins rest

/-- The canonical trace of a list of fully executed requests. -/
def execTraceOf : List Job → List ExEv
  | [] => []
  | j :: rest => ExEv.beginEx j :: ExEv.endEx j :: execTraceOf rest

/-- The trace events of a possibly open execution. -/
def openEvs : Option Job → List ExEv
  | none => []
  | some j => [ExEv.beginEx j]

/-- Consumer-loop invariant: all requests enqueued so far, in arrival
order, factor as the fully executed ones, then the one currently
executing, then the queue; the trace is the canonical trace of that
factoring. -/
def invExec (s : ExecState) : Prop :=
  ∃ done, s.trace = execTraceOf done ++ openEvs s.executing ∧
    s.enqLog = done ++ s.executing.toList ++ s.workQueue

/-! ### Consumer loop without exception handling (`MotorRunThread.run`,
lines 153-166, and `Serializer.run`, lines 62-65)

`self.resultQueue.put(callable(*args, **kwds))` has no `try`/`except`
around the callable: a device-level failure raised inside it propagates
out of `run()`, terminating the consumer thread.  A request is a
callable that either returns normally or raises a device-level error
(code `e`). -/

inductive JobR where
  | ok : Job → JobR
  | fails : Nat → JobR
deriving DecidableEq, Repr

/-- Running the consumer loop over the requests in queue order, until
the queue is exhausted or a callable raises.  Returns the results put on
`resultQueue` (in order), the uncaught error that escaped `run()` if
any, and the requests left on the queue when the thread died. -/
def runConsumerLoop : List JobR → List Res × Option Nat × List JobR
  | [] => ([], none, [])
  | JobR.ok j :: rest =>
    let (rs, err, un) := runConsumerLoop rest
    (execRes j :: rs, err, un)
  | JobR.fails e :: rest => ([], some e, rest)

/-- The error policy the spec states: no error escapes the loop
uncaught, every request is answered with a reply, and no request is left
unprocessed. -/
def errorsDeliveredAndContinues (reqs : List JobR) : Prop :=
  (runConsumerLoop reqs).2.1 = none ∧
  (runConsumerLoop reqs).1.length = reqs.length ∧
  (runConsumerLoop reqs).2.2 = []

instance (reqs : List JobR) : Decidable (errorsDeliveredAndContinues reqs) := by
  unfold errorsDeliveredAndContinues; infer_instance

/-! ## Theorems -/

/-- Claim C4: once the shutdown signal has been set (the stop queue is a
nonempty queue of stop tokens, as the shutdown protocol only ever puts
the token), every later call to `check_stop` — after any number `k` of
prior calls — returns `true` and leaves the token on the queue, and
putting the token again (always succeeds on an unbounded queue) leaves
the signal in the same terminal all-token state, on which every later
call still returns `true`. -/
theorem C4_shutdown_signal_terminal (q : List StopItem) (h : allTokens q) :
    (∀ k, (check_stop (checkStopIter k q)).1 = true ∧
      StopItem.token ∈ (check_stop (checkStopIter k q)).2 ∧
      allTokens (check_stop (checkStopIter k q)).2) ∧
    allTokens (q ++ [StopItem.token]) ∧
    (∀ k, (check_stop (checkStopIter k (q ++ [StopItem.token]))).1 = true) := by
  have main : ∀ (r : List StopItem), allTokens r → ∀ k,
      (check_stop (checkStopIter k r)).1 = true ∧
      StopItem.token ∈ (check_stop (checkStopIter k r)).2 ∧
      allTokens (check_stop (checkStopIter k r)).2 := by
    intro r hr k
    have hk := allTokens_checkStopIter hr k
    have hc := allTokens_check_stop hk
    refine ⟨hc.1, ?_, hc.2⟩
    obtain ⟨hne, hall⟩ := hc.2
    cases hq : (check_stop (checkStopIter k r)).2 with
    | nil => exact absurd hq hne
    | cons x rest =>
      have hx : x = StopItem.token := hall x (by rw [hq]; exact List.mem_cons_self x rest)
      rw [hx]; exact List.mem_cons_self _ _
  exact ⟨main q h, allTokens_put h,
    fun k => (main (q ++ [StopItem.token]) (allTokens_put h) k).1⟩

/-- Witness for C4 at the concrete queue `[token]`. -/
theorem C4_shutdown_signal_terminal_witness :
    allTokens [StopItem.token] ∧
    (check_stop (checkStopIter 3 [StopItem.token])).1 = true ∧
    allTokens ([StopItem.token] ++ [StopItem.token]) :=
  ⟨by decide,
   ((C4_shutdown_signal_terminal [StopItem.token] (by decide)).1 3).1,
   (C4_shutdown_signal_terminal [StopItem.token] (by decide)).2.1⟩

/-- Claim C10: a call to `check_stop` on a queue whose front item is not
the stop token removes that item, does not put it back, and returns
`false` — the item is silently consumed and discarded. -/
theorem C10_check_stop_discards_non_token (x : StopItem)
    (rest : List StopItem) (h : x ≠ StopItem.token) :
    check_stop (x :: rest) = (false, rest) := by
  cases x with
  | token => exact absurd rfl h
  | other n => rfl

/-- Witness for C10 at the concrete item `other 5`. -/
theorem C10_check_stop_discards_non_token_witness :
    StopItem.other 5 ≠ StopItem.token ∧
    check_stop (StopItem.other 5 :: [StopItem.token]) =
      (false, [StopItem.token]) :=
  ⟨by decide,
   C10_check_stop_discards_non_token (StopItem.other 5) [StopItem.token]
     (by decide)⟩

/-- Claim C5: the touch poller driven by the scripted readings
`[false, false, true, true, false]` (the first read initializing
`button_down`) issues exactly one Start and then exactly one Stop;
a non-transition (`pressed` equal to the tracked state) never issues a
command; and since the tracked state comes from an initial read, a first
iteration on an unchanged sensor state issues nothing. -/
theorem C5_touch_edge_detection (power : Int) :
    touchPoll power [false, false, true, true, false] =
      [TCmd.startCmd power, TCmd.stopCmd] ∧
    (∀ b, touchStep power b b = (b, none)) ∧
    (∀ first rest, touchPoll power (first :: first :: rest) =
      touchPoll power (first :: rest)) := by
  refine ⟨rfl, ?_, ?_⟩
  · intro b; cases b <;> rfl
  · intro first rest; cases first <;> simp [touchPoll, touchLoop, touchStep]

/-- Claim C6: `motor_start` samples telemetry strictly before issuing
the run command (its trace appends the sample event, then the run
event) and returns that pre-run sample, while `motor_stop` and
`motor_turn` issue the brake/idle or turn operation first and return
telemetry sampled strictly after it. -/
theorem C6_telemetry_sampling_order (mech : DevEv → Tacho → Tacho)
    (cell : Int) (d : Dev) (power degrees : Int) (brake_flag : Bool) :
    motor_start mech cell d power =
      (d.tacho,
       Dev.mk (mech (DevEv.runEv cell) d.tacho)
         (d.trace ++ [DevEv.sample d.tacho, DevEv.runEv cell])) ∧
    motor_stop mech brake_flag d =
      (mech (if brake_flag then DevEv.brakeEv else DevEv.idleEv) d.tacho,
       Dev.mk
         (mech (if brake_flag then DevEv.brakeEv else DevEv.idleEv) d.tacho)
         (d.trace ++
           [if brake_flag then DevEv.brakeEv else DevEv.idleEv,
            DevEv.sample (mech (if brake_flag then DevEv.brakeEv
              else DevEv.idleEv) d.tacho)])) ∧
    motor_turn mech d power degrees =
      (mech (DevEv.turnEv power degrees) d.tacho,
       Dev.mk (mech (DevEv.turnEv power degrees) d.tacho)
         (d.trace ++ [DevEv.turnEv power degrees,
           DevEv.sample (mech (DevEv.turnEv power degrees) d.tacho)])) := by
  refine ⟨?_, ?_, ?_⟩
  · simp [motor_start, get_tacho, runOp]
  · cases brake_flag <;> simp [motor_stop, get_tacho, brakeOp, idleOp]
  · simp [motor_turn, get_tacho, turnOp]

/-- Claim C9 fails as stated: executing a Start command with power
argument `50` while the shared power cell holds `100` issues the device
run operation at `100`, not at the passed `50`. -/
theorem C9_counterexample :
    ¬ ((motor_start (fun _ t => t) 100 ⟨⟨0, 0, 0⟩, []⟩ 50).2.trace =
        [DevEv.sample ⟨0, 0, 0⟩, DevEv.runEv 50]) := by
  decide

/-- Claim C9 as amended: for every power value `p` passed to a Start
command, executing it issues the device run operation at the shared
power cell's value at execution time (`MotorRunThread.power[0]`); the
passed argument `p` is ignored. -/
theorem C9_run_at_shared_cell (mech : DevEv → Tacho → Tacho)
    (cell : Int) (d : Dev) (p : Int) :
    (motor_start mech cell d p).2.trace =
      d.trace ++ [DevEv.sample d.tacho, DevEv.runEv cell] := by
  simp [motor_start, get_tacho, runOp]

/-- Claim C7: whenever the measured distance at a poll falls below
`min_distance`, the shared power cell's sign is reversed and exactly one
Turn command with the flipped power and a fixed 180-degree request is
issued, after which the cool-down `tout` is added to the clock before
the next poll; consequently the scripted distance trace that stays below
`min_distance` only for 5 ticks (shorter than the 10-tick cool-down)
yields exactly one reversal command over 8 polls, not one per tick. -/
theorem C7_reversal_and_debounce :
    (∀ (dist : Nat → Int) (dt tout fuel t : Nat) (power : Int),
      dist (t + dt) < min_distance →
        ultraRun dist dt tout (fuel + 1) t power =
          UCmd.turn (-power) 180 ::
            ultraRun dist dt tout fuel (t + dt + tout) (-power) ∧
        ultraPower dist dt tout (fuel + 1) t power =
          ultraPower dist dt tout fuel (t + dt + tout) (-power)) ∧
    ultraRun (fun t => if t ≤ 5 then 10 else 30) 1 10 8 0 100 =
      [UCmd.turn (-100) 180] := by
  constructor
  · intro dist dt tout fuel t power h
    constructor
    · rw [ultraRun, if_pos h]
    · rw [ultraPower, if_pos h]
  · decide

/-- Witness for C7 at a concrete always-below-threshold distance
function. -/
theorem C7_reversal_and_debounce_witness :
    (fun _ : Nat => (0 : Int)) (0 + 1) < min_distance ∧
    (ultraRun (fun _ : Nat => (0 : Int)) 1 2 (0 + 1) 0 100 =
        UCmd.turn (-100) 180 ::
          ultraRun (fun _ : Nat => (0 : Int)) 1 2 0 (0 + 1 + 2) (-100) ∧
      ultraPower (fun _ : Nat => (0 : Int)) 1 2 (0 + 1) 0 100 =
        ultraPower (fun _ : Nat => (0 : Int)) 1 2 0 (0 + 1 + 2) (-100)) :=
  ⟨by decide,
   C7_reversal_and_debounce.1 (fun _ => (0 : Int)) 1 2 0 0 100 (by decide)⟩

/-! ### Helper lemmas for the serializer theorems -/

lemma runSched_serialized (sub : List (Nat × Job)) (del : List (Nat × Res))
    (calls : List (Nat × Job)) :
    runSched ⟨[], [], [], sub, del⟩ (serializedSched calls) =
      some ⟨[], [], [], sub ++ calls,
        del ++ calls.map (fun q => (q.1, execRes q.2))⟩ := by
  induction calls generalizing sub del with
  | nil => simp [serializedSched, runSched]
  | cons q rest ih =>
    obtain ⟨i, j⟩ := q
    have h1 : step ⟨[], [], [], sub, del⟩ (Act.applyPut i j) =
        some ⟨[(i, j)], [], [i], sub ++ [(i, j)], del⟩ := by
      simp [step]
    have h2 : step ⟨[(i, j)], [], [i], sub ++ [(i, j)], del⟩ Act.consume =
        some ⟨[], [execRes j], [i], sub ++ [(i, j)], del⟩ := by
      simp [step]
    have h3 : step ⟨[], [execRes j], [i], sub ++ [(i, j)], del⟩
        (Act.applyGet i) =
        some ⟨[], [], [], sub ++ [(i, j)], del ++ [(i, execRes j)]⟩ := by
      simp [step]
    rw [serializedSched]
    rw [runSched, h1, Option.some_bind, runSched, h2, Option.some_bind,
      runSched, h3, Option.some_bind, ih]
    simp

lemma execTraceOf_append (a b : List Job) :
    execTraceOf (a ++ b) = execTraceOf a ++ execTraceOf b := by
  induction a with
  | nil => rfl
  | cons j rest ih => simp [execTraceOf, ih]

lemma invExec_step {s sNext : ExecState} {a : CAct}
    (h : invExec s) (hs : cstep s a = some sNext) : invExec sNext := by
  obtain ⟨done, htr, henq⟩ := h
  cases a with
  | enqueue j =>
    simp only [cstep, Option.some.injEq] at hs
    refine ⟨done, ?_, ?_⟩ <;> rw [← hs]
    · exact htr
    · simp [henq]
  | beginStep =>
    cases hex : s.executing with
    | some j => rw [cstep] at hs; rw [hex] at hs; exact absurd hs (by simp)
    | none =>
      cases hwq : s.workQueue with
      | nil =>
        rw [cstep] at hs; rw [hex, hwq] at hs; exact absurd hs (by simp)
      | cons j rest =>
        rw [cstep] at hs; rw [hex, hwq] at hs
        simp only [Option.some.injEq] at hs
        refine ⟨done, ?_, ?_⟩ <;> rw [← hs]
        · simp [htr, hex, openEvs]
        · rw [hex] at henq; rw [hwq] at henq
          simp [henq, Option.toList]
  | endStep =>
    cases hex : s.executing with
    | none => rw [cstep] at hs; rw [hex] at hs; exact absurd hs (by simp)
    | some j =>
      rw [cstep] at hs; rw [hex] at hs
      simp only [Option.some.injEq] at hs
      refine ⟨done ++ [j], ?_, ?_⟩ <;> rw [← hs]
      · simp [htr, hex, openEvs, execTraceOf_append, execTraceOf]
      · rw [hex] at henq; simp [henq, Option.toList]

lemma invExec_runCSched :
    ∀ (acts : List CAct) (s0 s : ExecState), invExec s0 →
      runCSched s0 acts = some s → invExec s := by
  intro acts
  induction acts with
  | nil =>
    intro s0 s h0 hr
    rw [runCSched] at hr
    simp only [Option.some.injEq] at hr
    exact hr ▸ h0
  | cons a rest ih =>
    intro s0 s h0 hr
    rw [runCSched] at hr
    cases hc : cstep s0 a with
    | none => rw [hc] at hr; simp at hr
    | some s1 =>
      rw [hc, Option.some_bind] at hr
      exact ih s1 s (invExec_step h0 hc) hr

lemma noOverlapAux_execTraceOf (done : List Job) (ex : Option Job) :
    noOverlapAux none (execTraceOf done ++ openEvs ex) = true := by
  induction done with
  | nil =>
    cases ex with
    | none => rfl
    | some j => rfl
  | cons j rest ih => simp [execTraceOf, noOverlapAux, ih]

lemma begins_execTraceOf (done : List Job) (ex : Option Job) :
    begins (execTraceOf done ++ openEvs ex) = done ++ ex.toList := by
  induction done with
  | nil =>
    cases ex with
    | none => rfl
    | some j => rfl
  | cons j rest ih => simp [execTraceOf, begins, ih]

lemma no_consume_no_delivery :
    ∀ (acts : List Act) (s0 s : SerState), Act.consume ∉ acts →
      s0.resultQueue = [] → runSched s0 acts = some s →
      s.resultQueue = [] ∧ s.delivered = s0.delivered := by
  intro acts
  induction acts with
  | nil =>
    intro s0 s _ h0 hr
    rw [runSched] at hr
    simp only [Option.some.injEq] at hr
    subst hr
    exact ⟨h0, rfl⟩
  | cons a rest ih =>
    intro s0 s hmem h0 hr
    rw [runSched] at hr
    cases a with
    | applyPut i j =>
      by_cases hi : i ∈ s0.pending
      · simp [step, hi] at hr
      · simp only [step, if_neg hi, Option.some_bind] at hr
        have hres := ih _ s (fun hc => hmem (List.mem_cons_of_mem _ hc))
          (by exact h0) hr
        exact hres
    | consume => exact absurd (List.mem_cons_self _ _) hmem
    | applyGet i =>
      by_cases hi : i ∈ s0.pending
      · simp [step, hi, h0] at hr
      · simp [step, hi] at hr

/-! ### Theorems for the serializer claims -/

/-- Claim C1 fails as stated: with two concurrent callers of `apply` on
one serializer, caller `1` can receive the result of caller `0`'s
command.  Schedule: caller 0 puts `start 50`, caller 1 puts `stop`, the
consumer executes the front request (caller 0's) and puts its result on
the shared `resultQueue`, and caller 1's blocked `resultQueue.get()`
wins the race and returns caller 0's result. -/
theorem C1_counterexample :
    ¬ ∀ (sched : List Act) (s : SerState),
        runSched initSer sched = some s → deliveredOwn s := by
  intro h
  have h2 := h [Act.applyPut 0 (Job.start 50), Act.applyPut 1 Job.stop,
      Act.consume, Act.applyGet 1]
    ⟨[(1, Job.stop)], [], [0], [(0, Job.start 50), (1, Job.stop)],
      [(1, execRes (Job.start 50))]⟩ (by decide)
  revert h2
  decide

/-- Claim C1 as amended: results are delivered through the single
shared `resultQueue` in command-execution order, so when the `apply`
calls do not overlap — each caller completes its `apply` before the
next one begins — every caller receives exactly the result of its own
submitted command, never another's. -/
theorem C1_serialized_delivery (calls : List (Nat × Job)) :
    ∃ s : SerState, runSched initSer (serializedSched calls) = some s ∧
      s.delivered = calls.map (fun q => (q.1, execRes q.2)) ∧
      deliveredOwn s := by
  refine ⟨⟨[], [], [], [] ++ calls,
    [] ++ calls.map (fun q => (q.1, execRes q.2))⟩,
    runSched_serialized [] [] calls, by simp, ?_⟩
  intro p hp
  simp only [List.nil_append, List.mem_map] at hp
  obtain ⟨q, hq, hpq⟩ := hp
  refine ⟨q, by simpa using hq, ?_, ?_⟩
  · rw [← hpq]
  · rw [← hpq]

/-- Claim C2: in every interleaving of enqueues with the consumer loop,
the execution intervals recorded in the trace never overlap (a new
execution begins only after the previous one has ended) and executions
begin in exactly the order the commands were enqueued. -/
theorem C2_no_overlap_fifo (acts : List CAct) (s : ExecState)
    (h : runCSched initExec acts = some s) :
    noOverlap s.trace = true ∧ begins s.trace <+: s.enqLog := by
  obtain ⟨done, htr, henq⟩ :=
    invExec_runCSched acts initExec s ⟨[], rfl, rfl⟩ h
  rw [htr, henq]
  constructor
  · exact noOverlapAux_execTraceOf done s.executing
  · rw [begins_execTraceOf]
    exact ⟨s.workQueue, by simp⟩

/-- Witness for C2 at a concrete three-command schedule with an
interleaved enqueue. -/
theorem C2_no_overlap_fifo_witness :
    runCSched initExec [CAct.enqueue Job.stop, CAct.beginStep,
        CAct.enqueue (Job.start 80), CAct.endStep, CAct.beginStep,
        CAct.endStep] =
      some ⟨[], none,
        [ExEv.beginEx Job.stop, ExEv.endEx Job.stop,
         ExEv.beginEx (Job.start 80), ExEv.endEx (Job.start 80)],
        [Job.stop, Job.start 80]⟩ ∧
    (noOverlap [ExEv.beginEx Job.stop, ExEv.endEx Job.stop,
        ExEv.beginEx (Job.start 80), ExEv.endEx (Job.start 80)] = true ∧
      begins [ExEv.beginEx Job.stop, ExEv.endEx Job.stop,
        ExEv.beginEx (Job.start 80), ExEv.endEx (Job.start 80)] <+:
        [Job.stop, Job.start 80]) :=
  ⟨by decide,
   C2_no_overlap_fifo [CAct.enqueue Job.stop, CAct.beginStep,
      CAct.enqueue (Job.start 80), CAct.endStep, CAct.beginStep,
      CAct.endStep]
    ⟨[], none,
      [ExEv.beginEx Job.stop, ExEv.endEx Job.stop,
       ExEv.beginEx (Job.start 80), ExEv.endEx (Job.start 80)],
      [Job.stop, Job.start 80]⟩ (by decide)⟩

/-- Claim C3 fails as stated: with a queue holding a command whose
execution raises device-level error `7` followed by a healthy command,
the consumer loop delivers no reply for the failing command (the
exception escapes `run()` uncaught) and never dequeues the subsequent
command. -/
theorem C3_counterexample :
    ¬ errorsDeliveredAndContinues [JobR.fails 7, JobR.ok Job.stop] := by
  decide

/-- Claim C3 as amended: when a command raises a device-level failure,
the exception propagates uncaught out of the consumer loop: the
commands before it are answered normally, the error is not delivered
through the reply path, and the loop terminates leaving every
subsequent command unprocessed. -/
theorem C3_uncaught_error_halts_loop (js : List Job) (e : Nat)
    (rest : List JobR) :
    runConsumerLoop (js.map JobR.ok ++ JobR.fails e :: rest) =
      (js.map execRes, some e, rest) := by
  induction js with
  | nil => rfl
  | cons j tail ih => simp [runConsumerLoop, ih]

/-- Claim C8 fails as stated: after the consumer loop has exited (no
`consume` step can ever occur again), an `apply` call by caller `0`
never completes — there is no continuation schedule under which caller
`0` receives any result, let alone a defined "shutdown in progress"
one. -/
theorem C8_counterexample :
    ¬ ∃ (acts : List Act) (s : SerState), Act.consume ∉ acts ∧
        runSched initSer (Act.applyPut 0 Job.stop :: acts) = some s ∧
        ∃ r, (0, r) ∈ s.delivered := by
  rintro ⟨acts, s, hnc, hrun, r, hr⟩
  rw [runSched] at hrun
  have hstep : step initSer (Act.applyPut 0 Job.stop) =
      some ⟨[(0, Job.stop)], [], [0], [(0, Job.stop)], []⟩ := by decide
  rw [hstep, Option.some_bind] at hrun
  have hinv := no_consume_no_delivery acts
    ⟨[(0, Job.stop)], [], [0], [(0, Job.stop)], []⟩ s hnc rfl hrun
  rw [hinv.2] at hr
  simp at hr

/-- Claim C8 as amended: once the consumer loop has exited, an `apply`
call can still enqueue its request, but with no result pending on the
shared `resultQueue` nothing is ever delivered to any caller: the call
blocks forever (there is no "shutdown in progress" result in the
program). -/
theorem C8_late_apply_hangs (acts : List Act) (s0 s : SerState)
    (h1 : Act.consume ∉ acts) (h2 : s0.resultQueue = [])
    (h3 : runSched s0 acts = some s) :
    s.resultQueue = [] ∧ s.delivered = s0.delivered :=
  no_consume_no_delivery acts s0 s h1 h2 h3

/-- Witness for C8 at the concrete schedule of one late `apply`. -/
theorem C8_late_apply_hangs_witness :
    (Act.consume ∉ [Act.applyPut 0 Job.stop, Act.applyPut 1 (Job.start 60)] ∧
      initSer.resultQueue = [] ∧
      runSched initSer [Act.applyPut 0 Job.stop,
        Act.applyPut 1 (Job.start 60)] =
        some ⟨[(0, Job.stop), (1, Job.start 60)], [], [0, 1],
          [(0, Job.stop), (1, Job.start 60)], []⟩) ∧
    (SerState.resultQueue ⟨[(0, Job.stop), (1, Job.start 60)], [], [0, 1],
        [(0, Job.stop), (1, Job.start 60)], []⟩ = [] ∧
      SerState.delivered ⟨[(0, Job.stop), (1, Job.start 60)], [], [0, 1],
        [(0, Job.stop), (1, Job.start 60)], []⟩ = initSer.delivered) :=
  ⟨⟨by decide, rfl, by decide⟩,
   C8_late_apply_hangs [Act.applyPut 0 Job.stop, Act.applyPut 1 (Job.start 60)]
     initSer
     ⟨[(0, Job.stop), (1, Job.start 60)], [], [0, 1],
       [(0, Job.stop), (1, Job.start 60)], []⟩
     (by decide) rfl (by decide)⟩

end NxtCar
